import Mathlib

/-!
Shallow embedding of `components.js`: the `ring-manager` system, the
`ring-focus` component (click-to-focus and close-to-return animations) and the
`drag-rotate` component of the AR jewellery-box scene.  Numbers are modelled by
`ℚ` (the source uses JS doubles; every quantity the claims mention is produced
by `+`, `-`, `*`, `/`, `min`, `max` on literal constants, so the rational model
is exact).  Per-frame animation callbacks are modelled by explicit frame
functions acting on an animation record stored while the callback chain is
alive, and the browser event loop by a step relation on the whole scene state.
-/

namespace CeviAR

/-- Component-wise rational 3D vector, modelling `THREE.Vector3`. -/
structure Vec3 where
  x : ℚ
  y : ℚ
  z : ℚ
deriving DecidableEq, Repr

/-- Vector addition (`THREE.Vector3.add`). -/
def Vec3.add (a b : Vec3) : Vec3 := ⟨a.x + b.x, a.y + b.y, a.z + b.z⟩

/-- Scalar multiplication (`THREE.Vector3.multiplyScalar`). -/
def Vec3.smul (c : ℚ) (a : Vec3) : Vec3 := ⟨c * a.x, c * a.y, c * a.z⟩

/-- `THREE.Vector3.lerpVectors(v1, v2, alpha)`: componentwise `v1 + (v2 - v1) * alpha`. -/
def lerpVectors (a b : Vec3) (t : ℚ) : Vec3 :=
  ⟨a.x + (b.x - a.x) * t, a.y + (b.y - a.y) * t, a.z + (b.z - a.z) * t⟩

/-- `THREE.MathUtils.lerp(x, y, t) = (1 - t) * x + t * y`. -/
def lerp (x y t : ℚ) : ℚ := (1 - t) * x + t * y

/-- Ease-out cubic used by the focus animation: `t => 1 - Math.pow(1 - t, 3)`. -/
def easeOutCubic (t : ℚ) : ℚ := 1 - (1 - t) ^ 3

/-- Ease-in-out cubic used by the close animation:
`t => t < 0.5 ? 4 * t * t * t : 1 - Math.pow(-2 * t + 2, 3) / 2`. -/
def easeInOutCubic (t : ℚ) : ℚ :=
  if t < 0.5 then 4 * t * t * t else 1 - (-2 * t + 2) ^ 3 / 2

/-- Mutable transform of an entity's `object3D`. -/
structure Object3D where
  position : Vec3
  scale : Vec3
  rotation : Vec3
deriving DecidableEq, Repr

/-- Data captured by the closure of the focus `animate` callback in `onClick`. -/
structure FocusAnim where
  startPos : Vec3
  target : Vec3
  startScale : Vec3
  targetScale : Vec3
  t0 : ℚ
deriving DecidableEq, Repr

/-- Data captured by the closure of the `animateBack` callback in `onClose`. -/
structure CloseAnim where
  startPos : Vec3
  endPos : Vec3
  startScale : Vec3
  endScale : Vec3
  startRot : Vec3
  endRot : Vec3
  t0 : ℚ
deriving DecidableEq, Repr

/-- Per-ring state of the `ring-focus` component: the baselines cloned in
`init`, the `isFocused` / `isAnimating` flags, and the currently scheduled
animation callback, if any (`none` once the callback chain has terminated). -/
structure FocusComp where
  originalPos : Vec3
  originalScale : Vec3
  originalRot : Vec3
  isFocused : Bool
  isAnimating : Bool
  focusAnim : Option FocusAnim
  closeAnim : Option CloseAnim
deriving DecidableEq, Repr

/-- Per-ring state of the `drag-rotate` component (`attached` models the
`_attached` flag guarding the global mousemove/touchmove listeners). -/
structure DragComp where
  dragging : Bool
  startX : ℚ
  startYaw : ℚ
  attached : Bool
  sensitivity : ℚ
deriving DecidableEq, Repr

/-- One ring entity: its `object3D` transform plus both component states. -/
structure RingEnt where
  obj : Object3D
  focus : FocusComp
  drag : DragComp
deriving DecidableEq, Repr

/-- The `ring-manager` system state (`busy` flag and focused element). -/
structure Manager where
  busy : Bool
  focusedEl : Option ℕ
deriving DecidableEq, Repr

/-- Whole-scene state: the shared manager and the rings, indexed by position. -/
structure SysState where
  mgr : Manager
  rings : List RingEnt
deriving DecidableEq, Repr

/-- Outbound DOM notification (`show-close-button` / `hide-close-button`). -/
inductive Notif where
  | showClose
  | hideClose
deriving DecidableEq, Repr

/-- The `ring-focus` `init` handler: clone the current transform as baselines,
clear the flags. -/
def initFocus (o : Object3D) : FocusComp :=
  { originalPos := o.position, originalScale := o.scale, originalRot := o.rotation,
    isFocused := false, isAnimating := false, focusAnim := none, closeAnim := none }

/-- The `drag-rotate` `init` handler (with the given `sensitivity` schema value). -/
def initDrag (o : Object3D) (sens : ℚ) : DragComp :=
  { dragging := false, startX := 0, startYaw := o.rotation.y, attached := false,
    sensitivity := sens }

/-- A freshly initialized ring entity. -/
def initEnt (o : Object3D) (sens : ℚ) : RingEnt :=
  { obj := o, focus := initFocus o, drag := initDrag o sens }

/-- Scene state at load: manager not busy, nothing focused, every ring freshly
initialized from its markup transform and sensitivity. -/
def initState (cfg : List (Object3D × ℚ)) : SysState :=
  { mgr := { busy := false, focusedEl := none },
    rings := cfg.map (fun p => initEnt p.1 p.2) }

/-- Focus-target computation in `onClick`:
`camPos.clone().add(camDir.multiplyScalar(1.6))`, then
`target.y = Math.max(target.y, originalPos.y + 1.2)`. -/
def clickTarget (camPos camDir origPos : Vec3) : Vec3 :=
  let target0 := camPos.add (Vec3.smul 1.6 camDir)
  { target0 with y := max target0.y (origPos.y + 1.2) }

/-- The `ring-focus` `onClick` handler for ring `i`.  `camPos` / `camDir` are
the camera's world position and direction read at click time, `now` is
`performance.now()`.  Returns the new scene state and emitted notifications. -/
def onClick (s : SysState) (i : ℕ) (camPos camDir : Vec3) (now : ℚ) :
    SysState × List Notif :=
  match s.rings[i]? with
  | none => (s, [])
  | some r =>
    if s.mgr.busy then (s, [])
    else if r.focus.isFocused || r.focus.isAnimating then (s, [])
    else
      let target := clickTarget camPos camDir r.focus.originalPos
      let a : FocusAnim :=
        { startPos := r.obj.position, target := target,
          startScale := r.obj.scale, targetScale := Vec3.smul 1.45 r.obj.scale,
          t0 := now }
      let r' := { r with focus := { r.focus with isAnimating := true, focusAnim := some a } }
      ({ mgr := { busy := true, focusedEl := some i }, rings := s.rings.set i r' }, [])

/-- One invocation of the focus `animate` callback for ring `i` at
`requestAnimationFrame` timestamp `time` (a no-op unless the callback chain is
alive).  Computes `t = min(1, (time - t0)/600)`, lerps position and scale with
the ease-out-cubic value, and on `t = 1` finishes: clears `isAnimating`, sets
`isFocused`, releases `busy` and emits `show-close-button`. -/
def focusFrame (s : SysState) (i : ℕ) (time : ℚ) : SysState × List Notif :=
  match s.rings[i]? with
  | none => (s, [])
  | some r =>
    match r.focus.focusAnim with
    | none => (s, [])
    | some a =>
      let t := min 1 ((time - a.t0) / 600)
      let e := easeOutCubic t
      let obj' := { r.obj with position := lerpVectors a.startPos a.target e,
                               scale := lerpVectors a.startScale a.targetScale e }
      if t < 1 then
        ({ s with rings := s.rings.set i { r with obj := obj' } }, [])
      else
        let focus' := { r.focus with isAnimating := false, isFocused := true, focusAnim := (none : Option FocusAnim) }
        ({ mgr := { s.mgr with busy := false },
           rings := s.rings.set i { r with obj := obj', focus := focus' } }, [Notif.showClose])

/-- The `ring-focus` `onClose` handler of ring `i` (one listener of the global
`close-focused-ring` event): ignored unless this ring's `isFocused` flag is set
and the manager is not busy; otherwise snapshots the current transform and the
baselines and starts the `animateBack` callback chain. -/
def onClose (s : SysState) (i : ℕ) (now : ℚ) : SysState × List Notif :=
  match s.rings[i]? with
  | none => (s, [])
  | some r =>
    if !r.focus.isFocused then (s, [])
    else if s.mgr.busy then (s, [])
    else
      let a : CloseAnim :=
        { startPos := r.obj.position, endPos := r.focus.originalPos,
          startScale := r.obj.scale, endScale := r.focus.originalScale,
          startRot := r.obj.rotation, endRot := r.focus.originalRot, t0 := now }
      ({ mgr := { s.mgr with busy := true },
         rings := s.rings.set i
           { r with focus := { r.focus with isAnimating := true, closeAnim := some a } } }, [])

/-- One invocation of the `animateBack` callback for ring `i` at timestamp
`time`: lerps position, scale and each Euler rotation axis with the
ease-in-out-cubic value; on `t = 1` clears both flags, releases `busy`, clears
the focused element and emits `hide-close-button`. -/
def closeFrame (s : SysState) (i : ℕ) (time : ℚ) : SysState × List Notif :=
  match s.rings[i]? with
  | none => (s, [])
  | some r =>
    match r.focus.closeAnim with
    | none => (s, [])
    | some a =>
      let t := min 1 ((time - a.t0) / 600)
      let e := easeInOutCubic t
      let obj' : Object3D :=
        { position := lerpVectors a.startPos a.endPos e,
          scale := lerpVectors a.startScale a.endScale e,
          rotation := ⟨lerp a.startRot.x a.endRot.x e, lerp a.startRot.y a.endRot.y e,
                       lerp a.startRot.z a.endRot.z e⟩ }
      if t < 1 then
        ({ s with rings := s.rings.set i { r with obj := obj' } }, [])
      else
        let focus' := { r.focus with isAnimating := false, isFocused := false, closeAnim := (none : Option CloseAnim) }
        ({ mgr := { busy := false, focusedEl := none },
           rings := s.rings.set i { r with obj := obj', focus := focus' } }, [Notif.hideClose])

/-- Dispatch of one `close-focused-ring` window event: every ring's `onClose`
handler runs synchronously, in registration (index) order. -/
def closeDispatch (s : SysState) (now : ℚ) : SysState :=
  (List.range s.rings.length).foldl (fun st i => (onClose st i now).1) s

/-- The `drag-rotate` `onPointerDown` handler of ring `i` (mousedown/touchstart
on the entity at pointer coordinate `x`): refused while the manager is busy;
otherwise starts a drag, recording the pointer x and the current yaw. -/
def onPointerDown (s : SysState) (i : ℕ) (x : ℚ) : SysState :=
  match s.rings[i]? with
  | none => s
  | some r =>
    if s.mgr.busy then s
    else
      let drag' := { r.drag with dragging := true, startX := x, startYaw := r.obj.rotation.y }
      { s with rings := s.rings.set i { r with drag := drag' } }

/-- Effect of one global mousemove/touchmove event on one ring: its
`onPointerMove` handler runs only while subscribed (`_attached`), and itself
returns early unless `dragging`; otherwise it sets
`rotation.y = startYaw + (x - startX) * sensitivity`. -/
def movedRing (x : ℚ) (r : RingEnt) : RingEnt :=
  if r.drag.attached && r.drag.dragging then
    { r with obj := { r.obj with rotation :=
        { r.obj.rotation with y := r.drag.startYaw + (x - r.drag.startX) * r.drag.sensitivity } } }
  else r

/-- One global pointer-move event at coordinate `x` reaches every ring whose
move listeners are attached. -/
def pointerMoveEvt (s : SysState) (x : ℚ) : SysState :=
  { s with rings := s.rings.map (movedRing x) }

/-- One global mouseup/touchend event: every ring's `onPointerUp` handler runs
and clears its `dragging` flag. -/
def pointerUpEvt (s : SysState) : SysState :=
  { s with rings := s.rings.map (fun r => { r with drag := { r.drag with dragging := false } }) }

/-- The `drag-rotate` `tick` handler of ring `i`, run once per rendered frame:
attaches the global move listeners when a drag is in progress and they are not
attached, removes them when no drag is in progress and they are attached. -/
def tick (s : SysState) (i : ℕ) : SysState :=
  match s.rings[i]? with
  | none => s
  | some r =>
    if r.drag.dragging && !r.drag.attached then
      { s with rings := s.rings.set i { r with drag := { r.drag with attached := true } } }
    else if !r.drag.dragging && r.drag.attached then
      { s with rings := s.rings.set i { r with drag := { r.drag with attached := false } } }
    else s

/-- One step of the browser event loop: any click, any animation-callback
invocation, one close-event dispatch, or any pointer/tick event. -/
inductive Step : SysState → SysState → Prop where
  | click (s : SysState) (i : ℕ) (camPos camDir : Vec3) (now : ℚ) :
      Step s (onClick s i camPos camDir now).1
  | focusCb (s : SysState) (i : ℕ) (time : ℚ) : Step s (focusFrame s i time).1
  | closeEvt (s : SysState) (now : ℚ) : Step s (closeDispatch s now)
  | closeCb (s : SysState) (i : ℕ) (time : ℚ) : Step s (closeFrame s i time).1
  | pointerDown (s : SysState) (i : ℕ) (x : ℚ) : Step s (onPointerDown s i x)
  | pointerMove (s : SysState) (x : ℚ) : Step s (pointerMoveEvt s x)
  | pointerUp (s : SysState) : Step s (pointerUpEvt s)
  | frame (s : SysState) (i : ℕ) : Step s (tick s i)

/-- Reachability of a scene state by some interleaving of event-loop steps. -/
def Reachable (s0 s : SysState) : Prop := Relation.ReflTransGen Step s0 s

/-- A close-animation callback chain is alive for ring `i`. -/
def closeActive (s : SysState) (i : ℕ) : Bool :=
  match s.rings[i]? with
  | some r => r.focus.closeAnim.isSome
  | none => false

/-- Ring `i` begins a close animation between states `s` and `s'`. -/
def beginsClose (s s' : SysState) (i : ℕ) : Bool :=
  closeActive s' i && !closeActive s i

/-- Per-ring consistency facts maintained by every event-loop step: a live
animation callback implies the `isAnimating` flag, a close animation always
interpolates the scale to the baseline, an idle ring sits at its baseline
scale, and the two callback chains and the `isFocused` flag exclude each
other as the handlers' guards dictate. -/
def RingInv (r : RingEnt) : Prop :=
  (r.focus.focusAnim.isSome = true → r.focus.isAnimating = true)
  ∧ (∀ a, r.focus.closeAnim = some a →
      r.focus.isAnimating = true ∧ a.endScale = r.focus.originalScale)
  ∧ (r.focus.isFocused = false → r.focus.isAnimating = false →
      r.obj.scale = r.focus.originalScale)
  ∧ (r.focus.isFocused = true → r.focus.focusAnim = none)
  ∧ (r.focus.closeAnim.isSome = true → r.focus.focusAnim = none)
  ∧ (r.focus.focusAnim.isSome = true → r.focus.closeAnim = none)

/-- Scene-wide invariant: every ring satisfies `RingInv`. -/
def Inv (s : SysState) : Prop := ∀ (i : ℕ) (r : RingEnt), s.rings[i]? = some r → RingInv r

/-- The baseline scale stored by the ring at position `i`, if any. -/
def origScaleAt (s : SysState) (i : ℕ) : Option Vec3 :=
  (s.rings[i]?).map (fun e => e.focus.originalScale)

/-- A concrete ring transform used for witnesses and counterexamples. -/
def demoObj : Object3D :=
  { position := ⟨-1/2, 21/20, -2⟩, scale := ⟨1, 1, 1⟩, rotation := ⟨0, 0, 0⟩ }

/-- A second concrete ring transform. -/
def demoObj2 : Object3D :=
  { position := ⟨1/2, 21/20, -2⟩, scale := ⟨1, 1, 1⟩, rotation := ⟨0, 0, 0⟩ }

/-- A concrete camera world position. -/
def demoCamPos : Vec3 := ⟨0, 8/5, 0⟩

/-- A concrete camera world direction. -/
def demoCamDir : Vec3 := ⟨0, 0, -1⟩

/-- Demo scene with one ring at default sensitivity. -/
def demoState : SysState := initState [(demoObj, 0.012)]

/-- Demo scene with two rings at default sensitivity. -/
def demoState2 : SysState := initState [(demoObj, 0.012), (demoObj2, 0.012)]

/-- Trace: click ring 0 of the two-ring demo scene at time 0. -/
def traceA1 : SysState := (onClick demoState2 0 demoCamPos demoCamDir 0).1

/-- Trace: ring 0's focus animation callback fires at time 600 and completes. -/
def traceA2 : SysState := (focusFrame traceA1 0 600).1

/-- Trace: ring 1 is clicked at time 600 while ring 0 is still focused. -/
def traceA3 : SysState := (onClick traceA2 1 demoCamPos demoCamDir 600).1

/-- Trace: ring 1's focus animation callback fires at time 1200 and completes. -/
def traceA4 : SysState := (focusFrame traceA3 1 1200).1

/-- Trace: pointer-down on ring 0 of the one-ring demo scene at x = 100. -/
def traceB1 : SysState := onPointerDown demoState 0 100

/-- Trace: a frame tick runs, attaching the global move listeners. -/
def traceB2 : SysState := tick traceB1 0

/-- Trace: the pointer is released; `dragging` clears but no tick has run yet. -/
def traceB3 : SysState := pointerUpEvt traceB2

/-- A ring entity sitting in Focused state. -/
def demoFocusedRing : RingEnt :=
  { obj := demoObj, focus := { initFocus demoObj with isFocused := true },
    drag := initDrag demoObj 0.012 }

/-- A non-busy scene whose first ring is focused. -/
def demoFocusedState : SysState :=
  { mgr := { busy := false, focusedEl := some 0 },
    rings := [demoFocusedRing, initEnt demoObj2 0.012] }

/-- An index holding a value in a list is within bounds. -/
theorem lt_length_of_some {α : Type} (l : List α) (i : ℕ) (a : α) (h : l[i]? = some a) :
    i < l.length := by
  by_contra hn
  rw [List.getElem?_eq_none (Nat.le_of_not_lt hn)] at h
  exact Option.noConfusion h

/-- Updating one list entry preserves any projection the update leaves intact. -/
theorem proj_set {α β : Type} (l : List α) (i : ℕ) (a a' : α) (f : α → β)
    (h : l[i]? = some a) (hf : f a' = f a) (j : ℕ) :
    ((l.set i a')[j]?).map f = (l[j]?).map f := by
  by_cases hij : i = j
  · subst hij
    rw [List.getElem?_set_eq_of_lt a' (lt_length_of_some l i a h), h]
    simp [hf]
  · rw [List.getElem?_set_ne hij]

/-- C4: delivering a click to ring `i` while the session is busy, or while the
ring itself is focused or animating, leaves the whole scene state unchanged
and emits no notification. -/
theorem click_ignored_when_busy_or_active (s : SysState) (i : ℕ)
    (camPos camDir : Vec3) (now : ℚ) (r : RingEnt) (h : s.rings[i]? = some r)
    (hcond : s.mgr.busy = true ∨ r.focus.isFocused = true ∨ r.focus.isAnimating = true) :
    onClick s i camPos camDir now = (s, []) := by
  rcases hcond with hb | hf | ha
  · simp [onClick, h, hb]
  · simp [onClick, h, hf]
  · simp [onClick, h, ha]

/-- Witness for C4: with the session busy right after ring 0 was clicked, a
click on ring 1 changes nothing and emits nothing. -/
theorem click_ignored_when_busy_or_active_witness :
    traceA1.rings[1]? = some (initEnt demoObj2 0.012)
    ∧ traceA1.mgr.busy = true
    ∧ onClick traceA1 1 demoCamPos demoCamDir 5 = (traceA1, []) :=
  ⟨by rfl, by rfl,
    click_ignored_when_busy_or_active traceA1 1 demoCamPos demoCamDir 5
      (initEnt demoObj2 0.012) (by rfl) (Or.inl (by rfl))⟩

/-- C7: a close notification starts the close animation of ring `i` exactly
when that ring is the focused one (its `isFocused` flag is set) and the
session is not busy; in every other state it leaves the scene unchanged and
emits nothing. -/
theorem close_only_for_focused_ring (s : SysState) (i : ℕ) (now : ℚ) (r : RingEnt)
    (h : s.rings[i]? = some r) :
    ((r.focus.isFocused = false ∨ s.mgr.busy = true) → onClose s i now = (s, []))
    ∧ (r.focus.isFocused = true → s.mgr.busy = false →
        (onClose s i now).1.mgr.busy = true
        ∧ ((onClose s i now).1.rings[i]?).map (fun e => e.focus.isAnimating) = some true
        ∧ ((onClose s i now).1.rings[i]?).map (fun e => e.focus.closeAnim.isSome) = some true) := by
  constructor
  · rintro (hf | hb)
    · simp [onClose, h, hf]
    · simp [onClose, h, hb]
  · intro hf hb
    have hl := lt_length_of_some s.rings i r h
    refine ⟨?_, ?_, ?_⟩ <;>
      simp [onClose, h, hf, hb, List.getElem?_set_eq_of_lt _ hl]

/-- Witness for C7: in the one-ring demo scene no ring is focused, so a close
notification to ring 0 is a no-op. -/
theorem close_only_for_focused_ring_witness :
    demoState.rings[0]? = some (initEnt demoObj 0.012)
    ∧ onClose demoState 0 7 = (demoState, []) :=
  ⟨by rfl,
    (close_only_for_focused_ring demoState 0 7 (initEnt demoObj 0.012) (by rfl)).1
      (Or.inl (by rfl))⟩

/-- C10: neither the click handler nor any frame of the focus animation
callback modifies any ring's rotation, so yaw accumulated by drags persists
through focusing. -/
theorem focus_animation_preserves_rotation (s : SysState) (i j : ℕ)
    (camPos camDir : Vec3) (now time : ℚ) :
    ((focusFrame s i time).1.rings[j]?).map (fun e => e.obj.rotation)
        = (s.rings[j]?).map (fun e => e.obj.rotation)
    ∧ ((onClick s i camPos camDir now).1.rings[j]?).map (fun e => e.obj.rotation)
        = (s.rings[j]?).map (fun e => e.obj.rotation) := by
  constructor
  · unfold focusFrame
    cases h : s.rings[i]? with
    | none => rfl
    | some r =>
      dsimp only
      cases ha : r.focus.focusAnim with
      | none => rfl
      | some a =>
        dsimp only
        split
        · refine proj_set s.rings i r _ _ h ?_ j
          rfl
        · refine proj_set s.rings i r _ _ h ?_ j
          rfl
  · unfold onClick
    cases h : s.rings[i]? with
    | none => rfl
    | some r =>
      dsimp only
      split
      · rfl
      · split
        · rfl
        · refine proj_set s.rings i r _ _ h ?_ j
          rfl

/-- C8 (amended): the move listeners are managed by the per-frame tick, not by
the pointer events themselves: after any drag-rotate tick the listeners are
attached exactly when the component is dragging. -/
theorem tick_attached_iff_dragging (s : SysState) (i : ℕ) :
    ((tick s i).rings[i]?).map (fun e => e.drag.attached)
      = (s.rings[i]?).map (fun e => e.drag.dragging) := by
  unfold tick
  cases h : s.rings[i]? with
  | none => simp [h]
  | some r =>
    have hl := lt_length_of_some s.rings i r h
    obtain ⟨o, fc, d⟩ := r
    obtain ⟨dg, sx, sy, att, sens⟩ := d
    cases dg <;> cases att <;>
      simp [h, List.getElem?_set_eq_of_lt _ hl]

/-- C8 as stated is false on the code: after the pointer-up that ends a drag
and before the next tick, the move listeners of ring 0 are still attached
while `dragging` is already false, in a state reachable from the initial one. -/
theorem attached_listeners_outlive_drag :
    Reachable demoState traceB3
    ∧ (traceB3.rings[0]?).map (fun e => e.drag.attached) = some true
    ∧ (traceB3.rings[0]?).map (fun e => e.drag.dragging) = some false := by
  refine ⟨?_, by rfl, by rfl⟩
  exact Relation.ReflTransGen.tail (Relation.ReflTransGen.tail
    (Relation.ReflTransGen.single (Step.pointerDown demoState 0 100))
    (Step.frame traceB1 0)) (Step.pointerUp traceB2)

/-- Interpolating with parameter 1 lands exactly on the second vector. -/
theorem lerpVectors_one (a b : Vec3) : lerpVectors a b 1 = b := by
  obtain ⟨b1, b2, b3⟩ := b
  simp only [lerpVectors, Vec3.mk.injEq]
  refine ⟨by ring, by ring, by ring⟩

/-- `THREE.MathUtils.lerp` with parameter 1 returns its second argument. -/
theorem lerp_one (x y : ℚ) : lerp x y 1 = y := by
  simp [lerp]

/-- The ease-out-cubic curve reaches exactly 1 at the end of the animation. -/
theorem easeOutCubic_one : easeOutCubic 1 = 1 := by norm_num [easeOutCubic]

/-- The ease-in-out-cubic curve reaches exactly 1 at the end of the animation. -/
theorem easeInOutCubic_one : easeInOutCubic 1 = 1 := by norm_num [easeInOutCubic]

/-- Once 600ms have elapsed, the clamped normalized progress is exactly 1. -/
theorem progress_complete (t0 time : ℚ) (ht : t0 + 600 ≤ time) :
    min 1 ((time - t0) / 600) = 1 := by
  refine min_eq_left ?_
  rw [le_div_iff₀ (by norm_num : (0:ℚ) < 600)]
  linarith

/-- An accepted click locks the session, records this ring as focused element,
marks it animating and stores the focus animation data `onClick` computes. -/
theorem onClick_accept (s : SysState) (i : ℕ) (camPos camDir : Vec3) (now : ℚ)
    (r : RingEnt) (h : s.rings[i]? = some r) (hb : s.mgr.busy = false)
    (hf : r.focus.isFocused = false) (ha : r.focus.isAnimating = false) :
    onClick s i camPos camDir now =
      ({ mgr := { busy := true, focusedEl := some i }, rings := s.rings.set i { r with focus := { r.focus with isAnimating := true, focusAnim := some ⟨r.obj.position, clickTarget camPos camDir r.focus.originalPos, r.obj.scale, Vec3.smul 1.45 r.obj.scale, now⟩ } } }, [])
    ∧ (onClick s i camPos camDir now).1.rings[i]?
        = some { r with focus := { r.focus with isAnimating := true, focusAnim := some ⟨r.obj.position, clickTarget camPos camDir r.focus.originalPos, r.obj.scale, Vec3.smul 1.45 r.obj.scale, now⟩ } } := by
  constructor
  · simp [onClick, h, hb, hf, ha]
  · simp [onClick, h, hb, hf, ha,
      List.getElem?_set_eq_of_lt _ (lt_length_of_some s.rings i r h)]

/-- A focus animation callback at or after `t0 + 600` completes: the ring sits
at the target with the target scale, becomes focused, stops animating, and the
busy flag is released. -/
theorem focusFrame_complete (s : SysState) (i : ℕ) (time : ℚ) (r : RingEnt)
    (a : FocusAnim) (h : s.rings[i]? = some r) (hfa : r.focus.focusAnim = some a)
    (ht : a.t0 + 600 ≤ time) :
    focusFrame s i time =
      ({ mgr := { s.mgr with busy := false }, rings := s.rings.set i { r with obj := { r.obj with position := a.target, scale := a.targetScale }, focus := { r.focus with isAnimating := false, isFocused := true, focusAnim := none } } }, [Notif.showClose])
    ∧ (focusFrame s i time).1.rings[i]?
        = some { r with obj := { r.obj with position := a.target, scale := a.targetScale }, focus := { r.focus with isAnimating := false, isFocused := true, focusAnim := none } } := by
  have htt := progress_complete a.t0 time ht
  constructor
  · simp [focusFrame, h, hfa, htt, easeOutCubic_one, lerpVectors_one]
  · simp [focusFrame, h, hfa, htt, easeOutCubic_one, lerpVectors_one,
      List.getElem?_set_eq_of_lt _ (lt_length_of_some s.rings i r h)]

/-- An accepted close locks the session, marks the ring animating and stores
the close animation data `onClose` computes (current transform to baselines). -/
theorem onClose_accept (s : SysState) (i : ℕ) (now : ℚ) (r : RingEnt)
    (h : s.rings[i]? = some r) (hf : r.focus.isFocused = true) (hb : s.mgr.busy = false) :
    onClose s i now =
      ({ mgr := { s.mgr with busy := true }, rings := s.rings.set i { r with focus := { r.focus with isAnimating := true, closeAnim := some ⟨r.obj.position, r.focus.originalPos, r.obj.scale, r.focus.originalScale, r.obj.rotation, r.focus.originalRot, now⟩ } } }, [])
    ∧ (onClose s i now).1.rings[i]?
        = some { r with focus := { r.focus with isAnimating := true, closeAnim := some ⟨r.obj.position, r.focus.originalPos, r.obj.scale, r.focus.originalScale, r.obj.rotation, r.focus.originalRot, now⟩ } } := by
  constructor
  · simp [onClose, h, hf, hb]
  · simp [onClose, h, hf, hb,
      List.getElem?_set_eq_of_lt _ (lt_length_of_some s.rings i r h)]

/-- A close animation callback at or after `t0 + 600` completes: the ring's
whole transform equals the stored end values, both flags clear, the busy flag
is released and the focused element cleared. -/
theorem closeFrame_complete (s : SysState) (i : ℕ) (time : ℚ) (r : RingEnt)
    (a : CloseAnim) (h : s.rings[i]? = some r) (hca : r.focus.closeAnim = some a)
    (ht : a.t0 + 600 ≤ time) :
    closeFrame s i time =
      ({ mgr := { busy := false, focusedEl := none }, rings := s.rings.set i { r with obj := { position := a.endPos, scale := a.endScale, rotation := a.endRot }, focus := { r.focus with isAnimating := false, isFocused := false, closeAnim := none } } }, [Notif.hideClose])
    ∧ (closeFrame s i time).1.rings[i]?
        = some { r with obj := { position := a.endPos, scale := a.endScale, rotation := a.endRot }, focus := { r.focus with isAnimating := false, isFocused := false, closeAnim := none } } := by
  have htt := progress_complete a.t0 time ht
  constructor
  · simp [closeFrame, h, hca, htt, easeInOutCubic_one, lerpVectors_one, lerp_one]
  · simp [closeFrame, h, hca, htt, easeInOutCubic_one, lerpVectors_one, lerp_one,
      List.getElem?_set_eq_of_lt _ (lt_length_of_some s.rings i r h)]

/-- Composite: an accepted click whose focus animation runs to completion puts
the ring at the click target with 1.45 times its click-time scale, focused,
and releases the busy flag. -/
theorem click_then_complete (s : SysState) (i : ℕ) (camPos camDir : Vec3)
    (now time : ℚ) (r : RingEnt) (h : s.rings[i]? = some r) (hb : s.mgr.busy = false)
    (hf : r.focus.isFocused = false) (ha : r.focus.isAnimating = false)
    (ht : now + 600 ≤ time) :
    (focusFrame (onClick s i camPos camDir now).1 i time).1
      = { mgr := { busy := false, focusedEl := some i }, rings := s.rings.set i { r with obj := { r.obj with position := clickTarget camPos camDir r.focus.originalPos, scale := Vec3.smul 1.45 r.obj.scale }, focus := { r.focus with isAnimating := false, isFocused := true, focusAnim := none } } }
    ∧ (focusFrame (onClick s i camPos camDir now).1 i time).1.rings[i]?
        = some { r with obj := { r.obj with position := clickTarget camPos camDir r.focus.originalPos, scale := Vec3.smul 1.45 r.obj.scale }, focus := { r.focus with isAnimating := false, isFocused := true, focusAnim := none } } := by
  obtain ⟨e1, h1⟩ := onClick_accept s i camPos camDir now r h hb hf ha
  obtain ⟨e2, h2⟩ := focusFrame_complete _ i time _ _ h1 rfl ht
  refine ⟨?_, ?_⟩
  · rw [e2, e1]
    dsimp only
    rw [List.set_set]
  · rw [h2]

/-- Composite: an accepted close whose animation runs to completion returns
the ring's whole transform exactly to its baselines, clears both flags, the
busy flag and the focused element. -/
theorem close_then_complete (s : SysState) (i : ℕ) (now time : ℚ) (r : RingEnt)
    (h : s.rings[i]? = some r) (hf : r.focus.isFocused = true) (hb : s.mgr.busy = false)
    (ht : now + 600 ≤ time) :
    (closeFrame (onClose s i now).1 i time).1
      = { mgr := { busy := false, focusedEl := none }, rings := s.rings.set i { r with obj := { position := r.focus.originalPos, scale := r.focus.originalScale, rotation := r.focus.originalRot }, focus := { r.focus with isAnimating := false, isFocused := false, closeAnim := none } } }
    ∧ (closeFrame (onClose s i now).1 i time).1.rings[i]?
        = some { r with obj := { position := r.focus.originalPos, scale := r.focus.originalScale, rotation := r.focus.originalRot }, focus := { r.focus with isAnimating := false, isFocused := false, closeAnim := none } } := by
  obtain ⟨e1, h1⟩ := onClose_accept s i now r h hf hb
  obtain ⟨e2, h2⟩ := closeFrame_complete _ i time _ _ h1 rfl ht
  refine ⟨?_, ?_⟩
  · rw [e2, e1]
    dsimp only
    rw [List.set_set]
  · rw [h2]

/-- C2: for every ring, a complete focus animation followed by a complete
close animation returns position, scale and every Euler rotation axis exactly
to the baselines captured at init. -/
theorem focus_close_roundtrip_exact (s : SysState) (i : ℕ) (camPos camDir : Vec3)
    (now1 time1 now2 time2 : ℚ) (r : RingEnt)
    (h : s.rings[i]? = some r) (hb : s.mgr.busy = false)
    (hf : r.focus.isFocused = false) (ha : r.focus.isAnimating = false)
    (ht1 : now1 + 600 ≤ time1) (ht2 : now2 + 600 ≤ time2) :
    ((closeFrame (onClose (focusFrame (onClick s i camPos camDir now1).1 i time1).1 i now2).1 i time2).1.rings[i]?).map (fun e => e.obj)
      = some { position := r.focus.originalPos, scale := r.focus.originalScale, rotation := r.focus.originalRot } := by
  obtain ⟨e12, h12⟩ := click_then_complete s i camPos camDir now1 time1 r h hb hf ha ht1
  obtain ⟨e34, h34⟩ := close_then_complete _ i now2 time2 _ h12 rfl (by rw [e12]) ht2
  rw [h34]
  rfl

/-- Witness for C2 on the one-ring demo scene with a full 600ms focus cycle
at t=0..600 and a full close cycle at t=1000..1600. -/
theorem focus_close_roundtrip_exact_witness :
    demoState.rings[0]? = some (initEnt demoObj 0.012)
    ∧ ((0:ℚ) + 600 ≤ 600) ∧ ((1000:ℚ) + 600 ≤ 1600)
    ∧ ((closeFrame (onClose (focusFrame (onClick demoState 0 demoCamPos demoCamDir 0).1 0 600).1 0 1000).1 0 1600).1.rings[0]?).map (fun e => e.obj)
        = some { position := (initEnt demoObj 0.012).focus.originalPos, scale := (initEnt demoObj 0.012).focus.originalScale, rotation := (initEnt demoObj 0.012).focus.originalRot } :=
  ⟨rfl, by norm_num, by norm_num,
    focus_close_roundtrip_exact demoState 0 demoCamPos demoCamDir 0 600 1000 1600
      (initEnt demoObj 0.012) rfl rfl rfl rfl (by norm_num) (by norm_num)⟩

/-- C5: an accepted click stores as focus target the camera position plus 1.6
times the camera direction, with the y coordinate replaced by the maximum of
that y and the original height plus 1.2; the completed focus animation puts
the ring exactly at this target. -/
theorem focus_target_in_front_of_camera (s : SysState) (i : ℕ) (camPos camDir : Vec3)
    (now time : ℚ) (r : RingEnt) (h : s.rings[i]? = some r) (hb : s.mgr.busy = false)
    (hf : r.focus.isFocused = false) (ha : r.focus.isAnimating = false)
    (ht : now + 600 ≤ time) :
    ((onClick s i camPos camDir now).1.rings[i]?).map (fun e => (e.focus.focusAnim).map (fun an => an.target))
      = some (some ⟨camPos.x + 1.6 * camDir.x, max (camPos.y + 1.6 * camDir.y) (r.focus.originalPos.y + 1.2), camPos.z + 1.6 * camDir.z⟩)
    ∧ ((focusFrame (onClick s i camPos camDir now).1 i time).1.rings[i]?).map (fun e => e.obj.position)
      = some ⟨camPos.x + 1.6 * camDir.x, max (camPos.y + 1.6 * camDir.y) (r.focus.originalPos.y + 1.2), camPos.z + 1.6 * camDir.z⟩ := by
  obtain ⟨e1, h1⟩ := onClick_accept s i camPos camDir now r h hb hf ha
  obtain ⟨e12, h12⟩ := click_then_complete s i camPos camDir now time r h hb hf ha ht
  constructor
  · rw [h1]
    rfl
  · rw [h12]
    rfl

/-- Witness for C5 on the one-ring demo scene: the stored target and the final
position both equal the camera-forward point with its height floored. -/
theorem focus_target_in_front_of_camera_witness :
    demoState.rings[0]? = some (initEnt demoObj 0.012)
    ∧ ((0:ℚ) + 600 ≤ 600)
    ∧ ((onClick demoState 0 demoCamPos demoCamDir 0).1.rings[0]?).map (fun e => (e.focus.focusAnim).map (fun an => an.target))
        = some (some ⟨demoCamPos.x + 1.6 * demoCamDir.x, max (demoCamPos.y + 1.6 * demoCamDir.y) ((initEnt demoObj 0.012).focus.originalPos.y + 1.2), demoCamPos.z + 1.6 * demoCamDir.z⟩)
    ∧ ((focusFrame (onClick demoState 0 demoCamPos demoCamDir 0).1 0 600).1.rings[0]?).map (fun e => e.obj.position)
        = some ⟨demoCamPos.x + 1.6 * demoCamDir.x, max (demoCamPos.y + 1.6 * demoCamDir.y) ((initEnt demoObj 0.012).focus.originalPos.y + 1.2), demoCamPos.z + 1.6 * demoCamDir.z⟩ :=
  ⟨rfl, by norm_num,
    (focus_target_in_front_of_camera demoState 0 demoCamPos demoCamDir 0 600
      (initEnt demoObj 0.012) rfl rfl rfl rfl (by norm_num)).1,
    (focus_target_in_front_of_camera demoState 0 demoCamPos demoCamDir 0 600
      (initEnt demoObj 0.012) rfl rfl rfl rfl (by norm_num)).2⟩

/-- The pointer-down handler never touches the manager state. -/
theorem onPointerDown_mgr (s : SysState) (i : ℕ) (x : ℚ) :
    (onPointerDown s i x).mgr = s.mgr := by
  unfold onPointerDown
  cases h : s.rings[i]? with
  | none => rfl
  | some r =>
    dsimp only
    split
    · rfl
    · rfl

/-- The tick handler never touches the manager state. -/
theorem tick_mgr (s : SysState) (i : ℕ) : (tick s i).mgr = s.mgr := by
  unfold tick
  cases h : s.rings[i]? with
  | none => rfl
  | some r =>
    dsimp only
    split
    · rfl
    · split
      · rfl
      · rfl

/-- Pointer-move events never touch the manager state. -/
theorem pointerMoveEvt_mgr (s : SysState) (x : ℚ) : (pointerMoveEvt s x).mgr = s.mgr := rfl

/-- Pointer-up events never touch the manager state. -/
theorem pointerUpEvt_mgr (s : SysState) : (pointerUpEvt s).mgr = s.mgr := rfl

/-- An accepted pointer-down starts a drag, recording the pointer x coordinate
and the ring's current yaw. -/
theorem onPointerDown_at (s : SysState) (i : ℕ) (x : ℚ) (r : RingEnt)
    (h : s.rings[i]? = some r) (hb : s.mgr.busy = false) :
    (onPointerDown s i x).rings[i]?
      = some { r with drag := { r.drag with dragging := true, startX := x, startYaw := r.obj.rotation.y } } := by
  simp [onPointerDown, h, hb,
    List.getElem?_set_eq_of_lt _ (lt_length_of_some s.rings i r h)]

/-- After a tick, the ring's listeners-attached flag equals its dragging flag
and nothing else changes. -/
theorem tick_at (s : SysState) (i : ℕ) (r : RingEnt) (h : s.rings[i]? = some r) :
    (tick s i).rings[i]? = some { r with drag := { r.drag with attached := r.drag.dragging } } := by
  have hl := lt_length_of_some s.rings i r h
  obtain ⟨o, fc, d⟩ := r
  obtain ⟨dg, sx, sy, att, sens⟩ := d
  cases dg <;> cases att <;>
    simp [tick, h, List.getElem?_set_eq_of_lt _ hl]

/-- A global pointer-move event acts on each ring through `movedRing`. -/
theorem pointerMoveEvt_at (s : SysState) (i : ℕ) (x : ℚ) :
    (pointerMoveEvt s x).rings[i]? = (s.rings[i]?).map (movedRing x) := by
  simp [pointerMoveEvt, List.getElem?_map]

/-- A global pointer-up event clears each ring's dragging flag. -/
theorem pointerUpEvt_at (s : SysState) (i : ℕ) :
    (pointerUpEvt s).rings[i]?
      = (s.rings[i]?).map (fun r => { r with drag := { r.drag with dragging := false } }) := by
  simp [pointerUpEvt, List.getElem?_map]

/-- C3: while a ring is dragging with listeners attached, each pointer-move
sets its yaw to the yaw recorded at drag start plus pointer displacement times
sensitivity; over two full press/move/release gestures the yaw deltas
accumulate on top of the pre-drag yaw and are never reset. -/
theorem drag_yaw_cumulative (s : SysState) (i : ℕ) (x0 x1 x2 x3 : ℚ) (r : RingEnt)
    (h : s.rings[i]? = some r) (hbusy : s.mgr.busy = false) :
    (∀ x : ℚ, r.drag.attached = true → r.drag.dragging = true →
       ((pointerMoveEvt s x).rings[i]?).map (fun e => e.obj.rotation.y)
         = some (r.drag.startYaw + (x - r.drag.startX) * r.drag.sensitivity))
    ∧ ((pointerMoveEvt (tick (onPointerDown (tick (pointerUpEvt (pointerMoveEvt (tick (onPointerDown s i x0) i) x1)) i) i x2) i) x3).rings[i]?).map (fun e => e.obj.rotation.y)
        = some (r.obj.rotation.y + (x1 - x0) * r.drag.sensitivity + (x3 - x2) * r.drag.sensitivity) := by
  constructor
  · intro x hatt hdrag
    rw [pointerMoveEvt_at, h]
    simp [movedRing, hatt, hdrag]
  · have h1 := onPointerDown_at s i x0 r h hbusy
    have h2 := tick_at _ i _ h1
    have h3 := pointerMoveEvt_at (tick (onPointerDown s i x0) i) i x1
    rw [h2] at h3
    simp only [Option.map_some'] at h3
    have h4 := pointerUpEvt_at (pointerMoveEvt (tick (onPointerDown s i x0) i) x1) i
    rw [h3] at h4
    simp only [Option.map_some'] at h4
    have h5 := tick_at _ i _ h4
    have hb6 : (tick (pointerUpEvt (pointerMoveEvt (tick (onPointerDown s i x0) i) x1)) i).mgr.busy = false := by
      rw [tick_mgr, pointerUpEvt_mgr, pointerMoveEvt_mgr, tick_mgr, onPointerDown_mgr]
      exact hbusy
    have h6 := onPointerDown_at _ i x2 _ h5 hb6
    have h7 := tick_at _ i _ h6
    have h8 := pointerMoveEvt_at (tick (onPointerDown (tick (pointerUpEvt (pointerMoveEvt (tick (onPointerDown s i x0) i) x1)) i) i x2) i) i x3
    rw [h7] at h8
    simp only [Option.map_some'] at h8
    rw [h8]
    simp only [Option.map_some', movedRing]
    norm_num

/-- Witness for C3: the drag scenario from the spec on the one-ring demo scene
(press at 100, move to 150, release; press at 200, move to 180), including the
numeric deltas 0.6 and -0.24 radians. -/
theorem drag_yaw_cumulative_witness :
    demoState.rings[0]? = some (initEnt demoObj 0.012)
    ∧ demoState.mgr.busy = false
    ∧ (((150:ℚ) - 100) * 0.012 = 0.6 ∧ ((180:ℚ) - 200) * 0.012 = -0.24)
    ∧ ((pointerMoveEvt (tick (onPointerDown (tick (pointerUpEvt (pointerMoveEvt (tick (onPointerDown demoState 0 100) 0) 150)) 0) 0 200) 0) 180).rings[0]?).map (fun e => e.obj.rotation.y)
        = some ((initEnt demoObj 0.012).obj.rotation.y + (150 - 100) * (initEnt demoObj 0.012).drag.sensitivity + (180 - 200) * (initEnt demoObj 0.012).drag.sensitivity) :=
  ⟨rfl, rfl, ⟨by norm_num, by norm_num⟩,
    (drag_yaw_cumulative demoState 0 100 150 200 180 (initEnt demoObj 0.012) rfl rfl).2⟩

/-- A busy session makes every onClose handler a no-op. -/
theorem onClose_busy (s : SysState) (i : ℕ) (now : ℚ) (hb : s.mgr.busy = true) :
    onClose s i now = (s, []) := by
  cases h : s.rings[i]? with
  | none => simp [onClose, h]
  | some r => simp [onClose, h, hb]

/-- The close-activity flag only depends on the ring entry. -/
theorem closeActive_congr (s s' : SysState) (m : ℕ) (h : s'.rings[m]? = s.rings[m]?) :
    closeActive s' m = closeActive s m := by
  unfold closeActive
  rw [h]

/-- Each onClose handler either leaves the scene unchanged, or switches the
busy flag on while changing no ring other than its own. -/
theorem onClose_dichotomy (s : SysState) (i : ℕ) (now : ℚ) :
    (onClose s i now).1 = s
    ∨ ((onClose s i now).1.mgr.busy = true
       ∧ ∀ m, m ≠ i → (onClose s i now).1.rings[m]? = s.rings[m]?) := by
  cases h : s.rings[i]? with
  | none => left; simp [onClose, h]
  | some r =>
    by_cases hf : r.focus.isFocused = true
    · by_cases hb : s.mgr.busy = true
      · left; simp [onClose, h, hb]
      · have hb' : s.mgr.busy = false := by simpa using hb
        right
        constructor
        · simp [onClose, h, hf, hb']
        · intro m hm
          simp [onClose, h, hf, hb', List.getElem?_set_ne (Ne.symm hm)]
    · have hf' : r.focus.isFocused = false := by simpa using hf
      left
      simp [onClose, h, hf']

/-- Folding onClose handlers from a busy state changes nothing. -/
theorem foldClose_busy (L : List ℕ) (now : ℚ) :
    ∀ s : SysState, s.mgr.busy = true →
      L.foldl (fun st i => (onClose st i now).1) s = s := by
  induction L with
  | nil => intro s hb; rfl
  | cons i L ih =>
    intro s hb
    have hs : (onClose s i now).1 = s := by rw [onClose_busy s i now hb]
    simp only [List.foldl_cons, hs]
    exact ih s hb

/-- At most one handler of a synchronous close dispatch can begin a close
animation: uniqueness over any fold of handlers from a non-busy state. -/
theorem foldClose_at_most_one (now : ℚ) (L : List ℕ) :
    ∀ (s : SysState) (j k : ℕ), s.mgr.busy = false →
      closeActive s j = false → closeActive s k = false →
      closeActive (L.foldl (fun st i => (onClose st i now).1) s) j = true →
      closeActive (L.foldl (fun st i => (onClose st i now).1) s) k = true →
      j = k := by
  induction L with
  | nil =>
    intro s j k hb hj hk hj' hk'
    rw [List.foldl_nil] at hj'
    simp [hj] at hj'
  | cons i L ih =>
    intro s j k hb hj hk hj' hk'
    rw [List.foldl_cons] at hj' hk'
    rcases onClose_dichotomy s i now with hid | ⟨hbusy, hothers⟩
    · rw [hid] at hj' hk'
      exact ih s j k hb hj hk hj' hk'
    · rw [foldClose_busy L now _ hbusy] at hj' hk'
      by_cases hji : j = i
      · by_cases hki : k = i
        · rw [hji, hki]
        · rw [closeActive_congr s _ k (hothers k hki)] at hk'
          simp [hk] at hk'
      · rw [closeActive_congr s _ j (hothers j hji)] at hj'
        simp [hj] at hj'

/-- C9: dispatching one close event synchronously to every ring's handler
while the session is not busy lets at most one ring begin the close animation;
the first eligible handler sets the busy flag before any later handler runs,
so every later handler returns without effect. -/
theorem close_dispatch_at_most_one (s : SysState) (now : ℚ) (hb : s.mgr.busy = false)
    (j k : ℕ) (hj : beginsClose s (closeDispatch s now) j = true)
    (hk : beginsClose s (closeDispatch s now) k = true) : j = k := by
  unfold beginsClose closeDispatch at hj hk
  rw [Bool.and_eq_true] at hj hk
  obtain ⟨hj1, hj2⟩ := hj
  obtain ⟨hk1, hk2⟩ := hk
  rw [Bool.not_eq_true'] at hj2 hk2
  exact foldClose_at_most_one now (List.range s.rings.length) s j k hb hj2 hk2 hj1 hk1

/-- Witness for C9: in the scene whose first ring is focused, ring 0 begins the
close animation on dispatch and the uniqueness conclusion applies to it. -/
theorem close_dispatch_at_most_one_witness :
    demoFocusedState.mgr.busy = false
    ∧ beginsClose demoFocusedState (closeDispatch demoFocusedState 5) 0 = true
    ∧ (0 : ℕ) = 0 :=
  ⟨rfl, by rfl, close_dispatch_at_most_one demoFocusedState 5 rfl 0 0 (by rfl) (by rfl)⟩

/-- Updating one ring to a value satisfying `RingInv` preserves the scene-wide
invariant, whatever happens to the manager. -/
theorem inv_set (s : SysState) (i : ℕ) (r' : RingEnt) (mgr' : Manager)
    (hs : Inv s) (hr' : RingInv r') :
    Inv { mgr := mgr', rings := s.rings.set i r' } := by
  intro j rr hj
  have hj' : (s.rings.set i r')[j]? = some rr := hj
  rw [List.getElem?_set] at hj'
  by_cases hij : i = j
  · rw [if_pos hij] at hj'
    by_cases hl : i < s.rings.length
    · rw [if_pos hl] at hj'
      obtain rfl := Option.some_inj.mp hj'
      exact hr'
    · rw [if_neg hl] at hj'
      exact absurd hj' (by simp)
  · rw [if_neg hij] at hj'
    exact hs j rr hj'

/-- Every freshly initialized ring satisfies the per-ring invariant. -/
theorem ringInv_initEnt (o : Object3D) (sens : ℚ) : RingInv (initEnt o sens) := by
  refine ⟨?_, ?_, ?_, ?_, ?_, ?_⟩ <;> simp [initEnt, initFocus, initDrag, RingInv]

/-- The initial scene state satisfies the scene-wide invariant. -/
theorem inv_initState (cfg : List (Object3D × ℚ)) : Inv (initState cfg) := by
  intro i r h
  have h' : (cfg.map (fun p => initEnt p.1 p.2))[i]? = some r := h
  rw [List.getElem?_map] at h'
  cases hx : cfg[i]? with
  | none => rw [hx] at h'; exact absurd h' (by simp)
  | some p =>
    rw [hx] at h'
    simp only [Option.map_some'] at h'
    obtain rfl := Option.some_inj.mp h'
    exact ringInv_initEnt p.1 p.2

/-- The click handler preserves the scene-wide invariant. -/
theorem inv_onClick (s : SysState) (i : ℕ) (camPos camDir : Vec3) (now : ℚ)
    (hs : Inv s) : Inv (onClick s i camPos camDir now).1 := by
  cases h : s.rings[i]? with
  | none =>
    have he : (onClick s i camPos camDir now).1 = s := by simp [onClick, h]
    rw [he]; exact hs
  | some r =>
    have hr := hs i r h
    obtain ⟨o, fc, d⟩ := r
    obtain ⟨oP, oS, oR, isF, isA, fA, cA⟩ := fc
    simp only [RingInv] at hr
    obtain ⟨hr1, hr2, hr3, hr4, hr5, hr6⟩ := hr
    by_cases hb : s.mgr.busy = true
    · have he : (onClick s i camPos camDir now).1 = s := by simp [onClick, h, hb]
      rw [he]; exact hs
    · have hb' : s.mgr.busy = false := by simpa using hb
      cases isF with
      | true =>
        have he : (onClick s i camPos camDir now).1 = s := by simp [onClick, h, hb']
        rw [he]; exact hs
      | false =>
        cases isA with
        | true =>
          have he : (onClick s i camPos camDir now).1 = s := by simp [onClick, h, hb']
          rw [he]; exact hs
        | false =>
          have hcnone : cA = none := by
            cases hc : cA with
            | none => rfl
            | some a => simpa using (hr2 a hc).1
          subst hcnone
          obtain ⟨e1, h1⟩ := onClick_accept s i camPos camDir now _ h hb' rfl rfl
          rw [e1]
          refine inv_set s i _ _ hs ?_
          refine ⟨fun _ => rfl, ?_, ?_, ?_, ?_, fun _ => rfl⟩
          · intro a hca
            simp at hca
          · intro h31 h32
            simp at h32
          · intro h4
            simp at h4
          · intro h5
            simp at h5

/-- Focus animation callbacks preserve the scene-wide invariant. -/
theorem inv_focusFrame (s : SysState) (i : ℕ) (time : ℚ) (hs : Inv s) :
    Inv (focusFrame s i time).1 := by
  cases h : s.rings[i]? with
  | none =>
    have he : (focusFrame s i time).1 = s := by simp [focusFrame, h]
    rw [he]; exact hs
  | some r =>
    have hr := hs i r h
    obtain ⟨o, fc, d⟩ := r
    obtain ⟨oP, oS, oR, isF, isA, fA, cA⟩ := fc
    simp only [RingInv] at hr
    obtain ⟨hr1, hr2, hr3, hr4, hr5, hr6⟩ := hr
    cases fA with
    | none =>
      have he : (focusFrame s i time).1 = s := by simp [focusFrame, h]
      rw [he]; exact hs
    | some a =>
      have hAn : isA = true := hr1 rfl
      have hcA : cA = none := hr6 rfl
      have hFoc : isF = false := by
        cases isF with
        | false => rfl
        | true => exact absurd (hr4 rfl) (by simp)
      subst hAn
      subst hcA
      subst hFoc
      unfold focusFrame
      rw [h]
      dsimp only
      split
      · refine inv_set s i _ _ hs ?_
        refine ⟨fun _ => rfl, ?_, ?_, ?_, ?_, fun _ => rfl⟩
        · intro a2 hca
          simp at hca
        · intro h31 h32
          simp at h32
        · intro h4
          simp at h4
        · intro h5
          simp at h5
      · refine inv_set s i _ _ hs ?_
        refine ⟨?_, ?_, ?_, fun _ => rfl, ?_, ?_⟩
        · intro h1
          simp at h1
        · intro a2 hca
          simp at hca
        · intro h31 h32
          simp at h31
        · intro h5
          simp at h5
        · intro h6
          simp at h6

/-- The close handler preserves the scene-wide invariant. -/
theorem inv_onClose (s : SysState) (i : ℕ) (now : ℚ) (hs : Inv s) :
    Inv (onClose s i now).1 := by
  cases h : s.rings[i]? with
  | none =>
    have he : (onClose s i now).1 = s := by simp [onClose, h]
    rw [he]; exact hs
  | some r =>
    have hr := hs i r h
    obtain ⟨o, fc, d⟩ := r
    obtain ⟨oP, oS, oR, isF, isA, fA, cA⟩ := fc
    simp only [RingInv] at hr
    obtain ⟨hr1, hr2, hr3, hr4, hr5, hr6⟩ := hr
    cases isF with
    | false =>
      have he : (onClose s i now).1 = s := by simp [onClose, h]
      rw [he]; exact hs
    | true =>
      by_cases hb : s.mgr.busy = true
      · have he : (onClose s i now).1 = s := by simp [onClose, h, hb]
        rw [he]; exact hs
      · have hb' : s.mgr.busy = false := by simpa using hb
        have hfA : fA = none := hr4 rfl
        subst hfA
        obtain ⟨e1, h1⟩ := onClose_accept s i now _ h rfl hb'
        rw [e1]
        refine inv_set s i _ _ hs ?_
        refine ⟨fun _ => rfl, ?_, ?_, fun _ => rfl, fun _ => rfl, ?_⟩
        · intro a2 hca
          simp only [Option.some.injEq] at hca
          subst hca
          exact ⟨rfl, rfl⟩
        · intro h31 h32
          simp at h31
        · intro h6
          simp at h6

/-- Close animation callbacks preserve the scene-wide invariant. -/
theorem inv_closeFrame (s : SysState) (i : ℕ) (time : ℚ) (hs : Inv s) :
    Inv (closeFrame s i time).1 := by
  cases h : s.rings[i]? with
  | none =>
    have he : (closeFrame s i time).1 = s := by simp [closeFrame, h]
    rw [he]; exact hs
  | some r =>
    have hr := hs i r h
    obtain ⟨o, fc, d⟩ := r
    obtain ⟨oP, oS, oR, isF, isA, fA, cA⟩ := fc
    simp only [RingInv] at hr
    obtain ⟨hr1, hr2, hr3, hr4, hr5, hr6⟩ := hr
    cases cA with
    | none =>
      have he : (closeFrame s i time).1 = s := by simp [closeFrame, h]
      rw [he]; exact hs
    | some a =>
      have hAn : isA = true := (hr2 a rfl).1
      have hSc : a.endScale = oS := (hr2 a rfl).2
      have hfA : fA = none := hr5 rfl
      subst hAn
      subst hfA
      unfold closeFrame
      rw [h]
      dsimp only
      split
      · refine inv_set s i _ _ hs ?_
        refine ⟨?_, ?_, ?_, fun _ => rfl, fun _ => rfl, ?_⟩
        · intro h1
          simp at h1
        · intro a2 hca
          simp only [Option.some.injEq] at hca
          subst hca
          exact ⟨rfl, hSc⟩
        · intro h31 h32
          simp at h32
        · intro h6
          simp at h6
      · rename_i ht
        have ht1 : min 1 ((time - a.t0) / 600) = 1 :=
          le_antisymm (min_le_left _ _) (not_lt.mp ht)
        refine inv_set s i _ _ hs ?_
        refine ⟨?_, ?_, ?_, ?_, ?_, ?_⟩
        · intro h1
          simp at h1
        · intro a2 hca
          simp at hca
        · intro h31 h32
          show lerpVectors a.startScale a.endScale (easeInOutCubic (min 1 ((time - a.t0) / 600))) = oS
          rw [ht1, easeInOutCubic_one, lerpVectors_one]
          exact hSc
        · intro h4
          simp at h4
        · intro h5
          simp at h5
        · intro h6
          simp at h6

/-- Pointer-down handlers preserve the scene-wide invariant: only drag state
changes, and `RingInv` does not mention it. -/
theorem inv_onPointerDown (s : SysState) (i : ℕ) (x : ℚ) (hs : Inv s) :
    Inv (onPointerDown s i x) := by
  cases h : s.rings[i]? with
  | none =>
    have he : onPointerDown s i x = s := by simp [onPointerDown, h]
    rw [he]; exact hs
  | some r =>
    by_cases hb : s.mgr.busy = true
    · have he : onPointerDown s i x = s := by simp [onPointerDown, h, hb]
      rw [he]; exact hs
    · have hb' : s.mgr.busy = false := by simpa using hb
      have he := onPointerDown_at s i x r h hb'
      unfold onPointerDown
      rw [h]
      dsimp only
      rw [if_neg (by simp [hb'])]
      exact inv_set s i _ _ hs (hs i r h)

/-- Pointer-move events preserve the scene-wide invariant. -/
theorem inv_pointerMoveEvt (s : SysState) (x : ℚ) (hs : Inv s) :
    Inv (pointerMoveEvt s x) := by
  intro j rr hj
  rw [pointerMoveEvt_at] at hj
  cases hx : s.rings[j]? with
  | none => rw [hx] at hj; exact absurd hj (by simp)
  | some r =>
    rw [hx] at hj
    simp only [Option.map_some'] at hj
    obtain rfl := Option.some_inj.mp hj
    have hr := hs j r hx
    unfold movedRing
    split
    · exact hr
    · exact hr

/-- Pointer-up events preserve the scene-wide invariant. -/
theorem inv_pointerUpEvt (s : SysState) (hs : Inv s) : Inv (pointerUpEvt s) := by
  intro j rr hj
  rw [pointerUpEvt_at] at hj
  cases hx : s.rings[j]? with
  | none => rw [hx] at hj; exact absurd hj (by simp)
  | some r =>
    rw [hx] at hj
    simp only [Option.map_some'] at hj
    obtain rfl := Option.some_inj.mp hj
    exact hs j r hx

/-- Tick handlers preserve the scene-wide invariant. -/
theorem inv_tick (s : SysState) (i : ℕ) (hs : Inv s) : Inv (tick s i) := by
  cases h : s.rings[i]? with
  | none =>
    have he : tick s i = s := by simp [tick, h]
    rw [he]; exact hs
  | some r =>
    unfold tick
    rw [h]
    dsimp only
    split
    · exact inv_set s i _ _ hs (hs i r h)
    · split
      · exact inv_set s i _ _ hs (hs i r h)
      · exact hs

/-- Folding close handlers preserves the scene-wide invariant. -/
theorem inv_foldClose (L : List ℕ) (now : ℚ) :
    ∀ s : SysState, Inv s → Inv (L.foldl (fun st i => (onClose st i now).1) s) := by
  induction L with
  | nil => intro s hs; exact hs
  | cons i L ih =>
    intro s hs
    rw [List.foldl_cons]
    exact ih _ (inv_onClose s i now hs)

/-- A close-event dispatch preserves the scene-wide invariant. -/
theorem inv_closeDispatch (s : SysState) (now : ℚ) (hs : Inv s) :
    Inv (closeDispatch s now) :=
  inv_foldClose (List.range s.rings.length) now s hs

/-- Every event-loop step preserves the scene-wide invariant. -/
theorem inv_step (s s' : SysState) (hst : Step s s') (hs : Inv s) : Inv s' := by
  cases hst with
  | click i camPos camDir now => exact inv_onClick s i camPos camDir now hs
  | focusCb i time => exact inv_focusFrame s i time hs
  | closeEvt now => exact inv_closeDispatch s now hs
  | closeCb i time => exact inv_closeFrame s i time hs
  | pointerDown i x => exact inv_onPointerDown s i x hs
  | pointerMove x => exact inv_pointerMoveEvt s x hs
  | pointerUp => exact inv_pointerUpEvt s hs
  | frame i => exact inv_tick s i hs

/-- The scene-wide invariant holds in every reachable state. -/
theorem inv_reachable (s0 s : SysState) (hr : Reachable s0 s) (hs : Inv s0) :
    Inv s := by
  unfold Reachable at hr
  induction hr with
  | refl => exact hs
  | tail h1 h2 ih => exact inv_step _ _ h2 ih

/-- Click handlers never change any ring's stored baseline scale. -/
theorem origScaleAt_onClick (s : SysState) (i2 : ℕ) (camPos camDir : Vec3)
    (now : ℚ) (i : ℕ) :
    origScaleAt (onClick s i2 camPos camDir now).1 i = origScaleAt s i := by
  unfold origScaleAt onClick
  cases h : s.rings[i2]? with
  | none => rfl
  | some r =>
    dsimp only
    split
    · rfl
    · split
      · rfl
      · refine proj_set s.rings i2 r _ _ h ?_ i
        rfl

/-- Focus animation callbacks never change any ring's stored baseline scale. -/
theorem origScaleAt_focusFrame (s : SysState) (i2 : ℕ) (time : ℚ) (i : ℕ) :
    origScaleAt (focusFrame s i2 time).1 i = origScaleAt s i := by
  unfold origScaleAt focusFrame
  cases h : s.rings[i2]? with
  | none => rfl
  | some r =>
    dsimp only
    cases ha : r.focus.focusAnim with
    | none => rfl
    | some a =>
      dsimp only
      split
      · refine proj_set s.rings i2 r _ _ h ?_ i
        rfl
      · refine proj_set s.rings i2 r _ _ h ?_ i
        rfl

/-- Close handlers never change any ring's stored baseline scale. -/
theorem origScaleAt_onClose (s : SysState) (i2 : ℕ) (now : ℚ) (i : ℕ) :
    origScaleAt (onClose s i2 now).1 i = origScaleAt s i := by
  unfold origScaleAt onClose
  cases h : s.rings[i2]? with
  | none => rfl
  | some r =>
    dsimp only
    split
    · rfl
    · split
      · rfl
      · refine proj_set s.rings i2 r _ _ h ?_ i
        rfl

/-- Close animation callbacks never change any ring's stored baseline scale. -/
theorem origScaleAt_closeFrame (s : SysState) (i2 : ℕ) (time : ℚ) (i : ℕ) :
    origScaleAt (closeFrame s i2 time).1 i = origScaleAt s i := by
  unfold origScaleAt closeFrame
  cases h : s.rings[i2]? with
  | none => rfl
  | some r =>
    dsimp only
    cases ha : r.focus.closeAnim with
    | none => rfl
    | some a =>
      dsimp only
      split
      · refine proj_set s.rings i2 r _ _ h ?_ i
        rfl
      · refine proj_set s.rings i2 r _ _ h ?_ i
        rfl

/-- Close dispatches never change any ring's stored baseline scale. -/
theorem origScaleAt_foldClose (L : List ℕ) (now : ℚ) :
    ∀ (s : SysState) (i : ℕ),
      origScaleAt (L.foldl (fun st m => (onClose st m now).1) s) i = origScaleAt s i := by
  induction L with
  | nil => intro s i; rfl
  | cons m L ih =>
    intro s i
    rw [List.foldl_cons]
    rw [ih ((onClose s m now).1) i]
    exact origScaleAt_onClose s m now i

/-- Pointer-down handlers never change any ring's stored baseline scale. -/
theorem origScaleAt_onPointerDown (s : SysState) (i2 : ℕ) (x : ℚ) (i : ℕ) :
    origScaleAt (onPointerDown s i2 x) i = origScaleAt s i := by
  unfold origScaleAt onPointerDown
  cases h : s.rings[i2]? with
  | none => rfl
  | some r =>
    dsimp only
    split
    · rfl
    · refine proj_set s.rings i2 r _ _ h ?_ i
      rfl

/-- Pointer-move events never change any ring's stored baseline scale. -/
theorem origScaleAt_pointerMoveEvt (s : SysState) (x : ℚ) (i : ℕ) :
    origScaleAt (pointerMoveEvt s x) i = origScaleAt s i := by
  unfold origScaleAt
  rw [pointerMoveEvt_at]
  cases hx : s.rings[i]? with
  | none => rfl
  | some r =>
    simp only [Option.map_some']
    unfold movedRing
    split
    · rfl
    · rfl

/-- Pointer-up events never change any ring's stored baseline scale. -/
theorem origScaleAt_pointerUpEvt (s : SysState) (i : ℕ) :
    origScaleAt (pointerUpEvt s) i = origScaleAt s i := by
  unfold origScaleAt
  rw [pointerUpEvt_at]
  cases hx : s.rings[i]? with
  | none => rfl
  | some r => rfl

/-- Tick handlers never change any ring's stored baseline scale. -/
theorem origScaleAt_tick (s : SysState) (i2 : ℕ) (i : ℕ) :
    origScaleAt (tick s i2) i = origScaleAt s i := by
  unfold origScaleAt tick
  cases h : s.rings[i2]? with
  | none => rfl
  | some r =>
    dsimp only
    split
    · refine proj_set s.rings i2 r _ _ h ?_ i
      rfl
    · split
      · refine proj_set s.rings i2 r _ _ h ?_ i
        rfl
      · rfl

/-- No event-loop step changes any ring's stored baseline scale. -/
theorem origScaleAt_step (s s' : SysState) (hst : Step s s') (i : ℕ) :
    origScaleAt s' i = origScaleAt s i := by
  cases hst with
  | click i2 camPos camDir now => exact origScaleAt_onClick s i2 camPos camDir now i
  | focusCb i2 time => exact origScaleAt_focusFrame s i2 time i
  | closeEvt now => exact origScaleAt_foldClose (List.range s.rings.length) now s i
  | closeCb i2 time => exact origScaleAt_closeFrame s i2 time i
  | pointerDown i2 x => exact origScaleAt_onPointerDown s i2 x i
  | pointerMove x => exact origScaleAt_pointerMoveEvt s x i
  | pointerUp => exact origScaleAt_pointerUpEvt s i
  | frame i2 => exact origScaleAt_tick s i2 i

/-- The stored baseline scales in any reachable state are those of the initial
state: baselines never change after initialization. -/
theorem origScaleAt_reachable (s0 s : SysState) (hr : Reachable s0 s) (i : ℕ) :
    origScaleAt s i = origScaleAt s0 i := by
  unfold Reachable at hr
  induction hr with
  | refl => rfl
  | tail h1 h2 ih => rw [origScaleAt_step _ _ h2 i, ih]

/-- C6: in every state reachable from the initial scene, an accepted click on
a ring followed by its completed focus animation leaves the ring's scale at
exactly 1.45 times the baseline scale captured at init (the ring is idle at
click time, so its scale then equals the baseline). -/
theorem focus_scale_is_145_of_baseline (cfg : List (Object3D × ℚ)) (s : SysState)
    (i : ℕ) (camPos camDir : Vec3) (now time : ℚ) (r r0 : RingEnt)
    (hreach : Reachable (initState cfg) s)
    (h : s.rings[i]? = some r) (h0 : (initState cfg).rings[i]? = some r0)
    (hb : s.mgr.busy = false) (hf : r.focus.isFocused = false)
    (ha : r.focus.isAnimating = false) (ht : now + 600 ≤ time) :
    ((focusFrame (onClick s i camPos camDir now).1 i time).1.rings[i]?).map (fun e => e.obj.scale)
      = some (Vec3.smul 1.45 r0.focus.originalScale) := by
  obtain ⟨e12, h12⟩ := click_then_complete s i camPos camDir now time r h hb hf ha ht
  rw [h12]
  simp only [Option.map_some']
  have hinv := inv_reachable _ _ hreach (inv_initState cfg)
  have hscale : r.obj.scale = r.focus.originalScale := (hinv i r h).2.2.1 hf ha
  have hbase : r.focus.originalScale = r0.focus.originalScale := by
    have hpres := origScaleAt_reachable _ _ hreach i
    unfold origScaleAt at hpres
    rw [h, h0] at hpres
    simpa using hpres
  rw [hscale, hbase]

/-- Witness for C6 at the initial one-ring demo scene itself (reachable by the
empty step sequence): the completed focus animation yields scale 1.45 times
the baseline. -/
theorem focus_scale_is_145_of_baseline_witness :
    demoState.rings[0]? = some (initEnt demoObj 0.012)
    ∧ ((0:ℚ) + 600 ≤ 600)
    ∧ ((focusFrame (onClick demoState 0 demoCamPos demoCamDir 0).1 0 600).1.rings[0]?).map (fun e => e.obj.scale)
        = some (Vec3.smul 1.45 (initEnt demoObj 0.012).focus.originalScale) :=
  ⟨rfl, by norm_num,
    focus_scale_is_145_of_baseline [(demoObj, 0.012)] demoState 0 demoCamPos demoCamDir
      0 600 (initEnt demoObj 0.012) (initEnt demoObj 0.012)
      Relation.ReflTransGen.refl rfl rfl rfl rfl rfl (by norm_num)⟩

/-- C1 is violated by the code: once ring 0's focus animation completes the
busy flag is released while ring 0 stays focused, so a click on ring 1 is
accepted; the reachable states `traceA3` and `traceA4` have two distinct
rings simultaneously in Focused or Animating state. -/
theorem two_rings_focused_reachable :
    Reachable demoState2 traceA3
    ∧ (traceA3.rings[0]?).map (fun e => e.focus.isFocused) = some true
    ∧ (traceA3.rings[1]?).map (fun e => e.focus.isAnimating) = some true
    ∧ Reachable demoState2 traceA4
    ∧ (traceA4.rings[0]?).map (fun e => e.focus.isFocused) = some true
    ∧ (traceA4.rings[1]?).map (fun e => e.focus.isFocused) = some true := by
  have h3 : Reachable demoState2 traceA3 :=
    Relation.ReflTransGen.tail (Relation.ReflTransGen.tail
      (Relation.ReflTransGen.single (Step.click demoState2 0 demoCamPos demoCamDir 0))
      (Step.focusCb traceA1 0 600)) (Step.click traceA2 1 demoCamPos demoCamDir 600)
  have v3a : (traceA3.rings[0]?).map (fun e => e.focus.isFocused) = some true := by
    norm_num [traceA3, traceA2, traceA1, demoState2, initState, initEnt, initFocus,
      initDrag, onClick, focusFrame, clickTarget, Vec3.add, Vec3.smul, easeOutCubic,
      lerpVectors, demoObj, demoObj2, demoCamPos, demoCamDir]
  have v3b : (traceA3.rings[1]?).map (fun e => e.focus.isAnimating) = some true := by
    norm_num [traceA3, traceA2, traceA1, demoState2, initState, initEnt, initFocus,
      initDrag, onClick, focusFrame, clickTarget, Vec3.add, Vec3.smul, easeOutCubic,
      lerpVectors, demoObj, demoObj2, demoCamPos, demoCamDir]
  have v4a : (traceA4.rings[0]?).map (fun e => e.focus.isFocused) = some true := by
    norm_num [traceA4, traceA3, traceA2, traceA1, demoState2, initState, initEnt, initFocus,
      initDrag, onClick, focusFrame, clickTarget, Vec3.add, Vec3.smul, easeOutCubic,
      lerpVectors, demoObj, demoObj2, demoCamPos, demoCamDir]
  have v4b : (traceA4.rings[1]?).map (fun e => e.focus.isFocused) = some true := by
    norm_num [traceA4, traceA3, traceA2, traceA1, demoState2, initState, initEnt, initFocus,
      initDrag, onClick, focusFrame, clickTarget, Vec3.add, Vec3.smul, easeOutCubic,
      lerpVectors, demoObj, demoObj2, demoCamPos, demoCamDir]
  exact ⟨h3, v3a, v3b,
    Relation.ReflTransGen.tail h3 (Step.focusCb traceA3 1 1200), v4a, v4b⟩

end CeviAR
